import Mathlib

set_option autoImplicit false

/-!
Verification of the crudora model-metadata-to-behavior pipeline.

This file gives a shallow embedding of the core pipeline of the repository:
the `Model` base class (`src/core/model.ts`), the `Repository` data-access
facade (`src/core/repository.ts`), the two `ValidationGenerator` variants
(`src/utils/validation.ts` — field-metadata based, and the fillable-based
variant), and the route generation of `Crudora.generateRoutes`
(`src/core/crudora.ts`).  JavaScript records are embedded as association
lists of string keys to values; the opaque Prisma persistence layer is a
function parameter.
-/

/-- A JSON-like field value as stored in a record. -/
inductive Value where
  | vStr : String → Value
  | vNum : Int → Value
  | vBool : Bool → Value
  | vDate : Int → Value
deriving DecidableEq, Repr

/-- A plain JavaScript record: an association list from keys to values. -/
abbrev Record := List (String × Value)

/-- Key lookup in a record (first matching key wins, like JS property access). -/
def lookupVal : Record → String → Option Value
  | [], _ => none
  | (k, v) :: rest, key => if k = key then some v else lookupVal rest key

/-- The static configuration carried by a `Model` subclass
(`src/core/model.ts`): table name, primary key, timestamps flag,
fillable whitelist and hidden blacklist.  `Option` captures the
possibly-undefined static fields. -/
structure ModelClass where
  name : String
  tableName : Option String := none
  primaryKey : Option String := some "id"
  timestamps : Bool := true
  fillable : Option (List String) := none
  hidden : Option (List String) := none
deriving DecidableEq, Repr

/-- ASCII lowercase of a character, modelling JavaScript `toLowerCase`
on the ASCII identifiers used in this code base. -/
def asciiLowerChar (c : Char) : Char :=
  if 'A' ≤ c ∧ c ≤ 'Z' then Char.ofNat (c.toNat + 32) else c

/-- ASCII lowercase of a string (`toLowerCase`). -/
def asciiLower (s : String) : String :=
  ⟨s.data.map asciiLowerChar⟩

/-- JavaScript `a || b` on an optional string: `b` when `a` is undefined
or the empty string (falsy). -/
def jsOrElse (a : Option String) (b : String) : String :=
  match a with
  | some s => if s.isEmpty then b else s
  | none => b

/-- `Model.getTableName`: `this.tableName || this.name.toLowerCase() + 's'`. -/
def ModelClass.getTableName (m : ModelClass) : String :=
  jsOrElse m.tableName (asciiLower m.name ++ "s")

/-- `Model.getPrimaryKey`: `this.primaryKey || 'id'`. -/
def ModelClass.getPrimaryKey (m : ModelClass) : String :=
  jsOrElse m.primaryKey "id"

/-- The primary-key entry of the select object: included iff the primary
key is not hidden (`if (!this.hidden.includes(primaryKey))`). -/
def selectPkPart (pk : String) (hidden : List String) : List String :=
  if pk ∈ hidden then [] else [pk]

/-- The timestamp entries of the select object: `createdAt` / `updatedAt`
when timestamps are enabled and the field is not hidden. -/
def selectTsPart (ts : Bool) (hidden : List String) : List String :=
  if ts then
    (if "createdAt" ∈ hidden then [] else ["createdAt"])
      ++ (if "updatedAt" ∈ hidden then [] else ["updatedAt"])
  else []

/-- The select object built in the fillable branch of
`Model.getSelectObject`: primary key (if not hidden), then each fillable
field that is not hidden, then the timestamp fields. -/
def buildSelectObject (m : ModelClass) (hidden fillable : List String) : List String :=
  selectPkPart m.getPrimaryKey hidden
    ++ fillable.filter (fun y => decide (y ∉ hidden))
    ++ selectTsPart m.timestamps hidden

/-- The DMMF introspection branch of `Model.getSelectObject`: when the
Prisma client exposes the model's full field list, select every field not
hidden; otherwise fall back to `undefined` (no mask). -/
def dmmfSelect (hidden : List String) (dmmfFields : Option (List String)) :
    Option (List String) :=
  match dmmfFields with
  | some fields => some (fields.filter (fun y => decide (y ∉ hidden)))
  | none => none

/-- `Model.getSelectObject(prismaClient?)`: `none` models the
JavaScript `undefined` return (no projection restriction).
`dmmfFields` stands for the field list the Prisma DMMF introspection
reports for this model, `none` when introspection is unavailable. -/
def ModelClass.getSelectObject (m : ModelClass) (dmmfFields : Option (List String)) :
    Option (List String) :=
  match m.hidden with
  | none => none
  | some hidden =>
    if hidden.length = 0 then none
    else
      match m.fillable with
      | some fillable =>
        if 0 < fillable.length then some (buildSelectObject m hidden fillable)
        else dmmfSelect hidden dmmfFields
      | none => dmmfSelect hidden dmmfFields

/-- The `filterObject` closure inside `Repository.filterHiddenFields`:
copy the record and delete every hidden key. -/
def filterObject (hidden : List String) (r : Record) : Record :=
  r.filter (fun kv => decide (kv.1 ∉ hidden))

/-- A value returned by the persistence layer: `null`, a single record,
or an array of records. -/
inductive PersistResult where
  | nullR : PersistResult
  | one : Record → PersistResult
  | many : List Record → PersistResult
deriving DecidableEq, Repr

/-- `Repository.filterHiddenFields`: identity when the model declares no
hidden fields, otherwise delete the hidden keys from the record, or from
every record of an array. -/
def filterHiddenFields (m : ModelClass) (data : PersistResult) : PersistResult :=
  match m.hidden with
  | none => data
  | some hidden =>
    if hidden.length = 0 then data
    else
      match data with
      | .nullR => .nullR
      | .one r => .one (filterObject hidden r)
      | .many rs => .many (rs.map (filterObject hidden))

/-- `Repository.filterHiddenFields` specialised to a single record, as
used on the result of `create`, `findById` and `update`. -/
def filterHiddenRecord (m : ModelClass) (r : Record) : Record :=
  match m.hidden with
  | none => r
  | some hidden => if hidden.length = 0 then r else filterObject hidden r

/-- Membership in the primary-key part of the select object. -/
theorem mem_selectPkPart (x pk : String) (hidden : List String) :
    x ∈ selectPkPart pk hidden ↔ x = pk ∧ x ∉ hidden := by
  unfold selectPkPart
  by_cases hpk : pk ∈ hidden
  · rw [if_pos hpk]
    constructor
    · intro hx; cases hx
    · rintro ⟨rfl, hx⟩; exact absurd hpk hx
  · rw [if_neg hpk]
    constructor
    · intro hx
      rcases List.mem_singleton.mp hx with rfl
      exact ⟨rfl, hpk⟩
    · rintro ⟨rfl, _⟩; exact List.mem_singleton.mpr rfl

/-- Membership in the timestamp part of the select object. -/
theorem mem_selectTsPart (x : String) (ts : Bool) (hidden : List String) :
    x ∈ selectTsPart ts hidden ↔
      ts = true ∧ ((x = "createdAt" ∧ x ∉ hidden) ∨ (x = "updatedAt" ∧ x ∉ hidden)) := by
  unfold selectTsPart
  cases ts with
  | false => simp
  | true =>
    rw [if_pos rfl]
    constructor
    · intro hx
      refine ⟨rfl, ?_⟩
      rcases List.mem_append.mp hx with hx | hx
      · by_cases hca : ("createdAt" : String) ∈ hidden
        · rw [if_pos hca] at hx; cases hx
        · rw [if_neg hca] at hx
          rcases List.mem_singleton.mp hx with rfl
          exact Or.inl ⟨rfl, hca⟩
      · by_cases hua : ("updatedAt" : String) ∈ hidden
        · rw [if_pos hua] at hx; cases hx
        · rw [if_neg hua] at hx
          rcases List.mem_singleton.mp hx with rfl
          exact Or.inr ⟨rfl, hua⟩
    · rintro ⟨-, ⟨rfl, hx⟩ | ⟨rfl, hx⟩⟩
      · exact List.mem_append.mpr (Or.inl (by rw [if_neg hx]; exact List.mem_singleton.mpr rfl))
      · exact List.mem_append.mpr (Or.inr (by rw [if_neg hx]; exact List.mem_singleton.mpr rfl))

/-- Membership in the fillable part of the select object. -/
theorem mem_fillable_filter (x : String) (f hidden : List String) :
    x ∈ f.filter (fun y => decide (y ∉ hidden)) ↔ x ∈ f ∧ x ∉ hidden := by
  rw [List.mem_filter]
  simp

/-- Membership in the whole select object of the fillable branch. -/
theorem mem_buildSelectObject (m : ModelClass) (hidden fillable : List String) (x : String) :
    x ∈ buildSelectObject m hidden fillable ↔
      (x = m.getPrimaryKey ∨ x ∈ fillable ∨
        (m.timestamps = true ∧ (x = "createdAt" ∨ x = "updatedAt"))) ∧ x ∉ hidden := by
  unfold buildSelectObject
  rw [List.mem_append, List.mem_append, mem_selectPkPart, mem_fillable_filter,
    mem_selectTsPart]
  tauto

/-- Membership characterisation of the computed projection mask when both
hidden and fillable fields are non-empty. -/
theorem getSelectObject_fillable (m : ModelClass) (dmmfFields : Option (List String))
    (h f : List String) (hh : m.hidden = some h) (hne : h ≠ [])
    (hf : m.fillable = some f) (hfne : f ≠ []) :
    m.getSelectObject dmmfFields = some (buildSelectObject m h f) := by
  unfold ModelClass.getSelectObject
  rw [hh, hf]
  change (if h.length = 0 then none
    else if 0 < f.length then some (buildSelectObject m h f) else dmmfSelect h dmmfFields)
    = some (buildSelectObject m h f)
  rw [if_neg (fun hz => hne (List.length_eq_zero.mp hz))]
  rw [if_pos (List.length_pos.mpr hfne)]

/-- Keys deleted by the hidden-field filter are gone from the record. -/
theorem lookupVal_filterObject_mem (hidden : List String) (r : Record) (k : String)
    (hk : k ∈ hidden) : lookupVal (filterObject hidden r) k = none := by
  induction r with
  | nil => rfl
  | cons kv rest ih =>
    obtain ⟨a, v⟩ := kv
    by_cases hmem : a ∈ hidden
    · have hstep : filterObject hidden ((a, v) :: rest) = filterObject hidden rest := by
        simp [filterObject, List.filter_cons, hmem]
      rw [hstep]
      exact ih
    · have hstep : filterObject hidden ((a, v) :: rest) = (a, v) :: filterObject hidden rest := by
        simp [filterObject, List.filter_cons, hmem]
      rw [hstep]
      have hne : a ≠ k := fun he => hmem (he ▸ hk)
      rw [show lookupVal ((a, v) :: filterObject hidden rest) k
          = if a = k then some v else lookupVal (filterObject hidden rest) k from rfl]
      rw [if_neg hne]
      exact ih

/-- Keys not listed as hidden survive the hidden-field filter unchanged. -/
theorem lookupVal_filterObject_not_mem (hidden : List String) (r : Record) (k : String)
    (hk : k ∉ hidden) : lookupVal (filterObject hidden r) k = lookupVal r k := by
  induction r with
  | nil => rfl
  | cons kv rest ih =>
    obtain ⟨a, v⟩ := kv
    by_cases hmem : a ∈ hidden
    · have hstep : filterObject hidden ((a, v) :: rest) = filterObject hidden rest := by
        simp [filterObject, List.filter_cons, hmem]
      rw [hstep]
      have hne : a ≠ k := fun he => hk (he ▸ hmem)
      rw [show lookupVal ((a, v) :: rest) k
          = if a = k then some v else lookupVal rest k from rfl]
      rw [if_neg hne]
      exact ih
    · have hstep : filterObject hidden ((a, v) :: rest) = (a, v) :: filterObject hidden rest := by
        simp [filterObject, List.filter_cons, hmem]
      rw [hstep]
      by_cases hak : a = k
      · subst hak
        simp [lookupVal]
      · rw [show lookupVal ((a, v) :: filterObject hidden rest) k
            = if a = k then some v else lookupVal (filterObject hidden rest) k from rfl]
        rw [show lookupVal ((a, v) :: rest) k
            = if a = k then some v else lookupVal rest k from rfl]
        rw [if_neg hak, if_neg hak]
        exact ih

/-- C1: for a model with non-empty `hiddenFields` and non-empty
`fillableFields`, `getSelectObject` returns a non-null mask equal (as a
set of field names) to `(primaryKeyName ∪ fillableFields ∪ (timestamps ?
createdAt, updatedAt : ∅)) minus hiddenFields`; consequently every field
of the mask is absent from `hiddenFields`, and the primary key is in the
mask unless it is itself hidden. -/
theorem c1_select_object_mask (m : ModelClass) (dmmfFields : Option (List String))
    (h f : List String) (hh : m.hidden = some h) (hne : h ≠ [])
    (hf : m.fillable = some f) (hfne : f ≠ []) :
    ∃ mask, m.getSelectObject dmmfFields = some mask
      ∧ (∀ x, x ∈ mask ↔
          (x = m.getPrimaryKey ∨ x ∈ f ∨
            (m.timestamps = true ∧ (x = "createdAt" ∨ x = "updatedAt"))) ∧ x ∉ h)
      ∧ (∀ x ∈ mask, x ∉ h)
      ∧ (m.getPrimaryKey ∉ h → m.getPrimaryKey ∈ mask) := by
  refine ⟨buildSelectObject m h f, getSelectObject_fillable m dmmfFields h f hh hne hf hfne,
    fun x => mem_buildSelectObject m h f x, ?_, ?_⟩
  · intro x hx
    exact ((mem_buildSelectObject m h f x).mp hx).2
  · intro hpk
    exact (mem_buildSelectObject m h f m.getPrimaryKey).mpr ⟨Or.inl rfl, hpk⟩

/-- C1 witness: a concrete model with hidden and fillable fields. -/
theorem c1_select_object_mask_witness :
    ∃ mask, ModelClass.getSelectObject
        { name := "User", tableName := some "users", fillable := some ["name", "email"],
          hidden := some ["password"] } none = some mask
      ∧ (∀ x, x ∈ mask ↔
          (x = ModelClass.getPrimaryKey
              { name := "User", tableName := some "users", fillable := some ["name", "email"],
                hidden := some ["password"] } ∨ x ∈ ["name", "email"] ∨
            (ModelClass.timestamps
              { name := "User", tableName := some "users", fillable := some ["name", "email"],
                hidden := some ["password"] } = true ∧ (x = "createdAt" ∨ x = "updatedAt")))
            ∧ x ∉ ["password"])
      ∧ (∀ x ∈ mask, x ∉ ["password"])
      ∧ (ModelClass.getPrimaryKey
            { name := "User", tableName := some "users", fillable := some ["name", "email"],
              hidden := some ["password"] } ∉ ["password"] →
          ModelClass.getPrimaryKey
            { name := "User", tableName := some "users", fillable := some ["name", "email"],
              hidden := some ["password"] } ∈ mask) :=
  c1_select_object_mask
    { name := "User", tableName := some "users", fillable := some ["name", "email"],
      hidden := some ["password"] } none ["password"] ["name", "email"]
    rfl (by decide) rfl (by decide)

/-- C2: when the projection mask is null but hidden fields are declared,
the post-fetch filter removes exactly the hidden keys from a single
record, and element-wise from an array of records, leaving every other
key-value pair unchanged. -/
theorem c2_post_fetch_filter (m : ModelClass) (dmmfFields : Option (List String))
    (h : List String) (hh : m.hidden = some h) (hne : h ≠ [])
    (hmask : m.getSelectObject dmmfFields = none) :
    (∀ r, filterHiddenFields m (PersistResult.one r) = PersistResult.one (filterObject h r))
    ∧ (∀ rs, filterHiddenFields m (PersistResult.many rs)
        = PersistResult.many (rs.map (filterObject h)))
    ∧ (∀ r k, k ∈ h → lookupVal (filterObject h r) k = none)
    ∧ (∀ r k, k ∉ h → lookupVal (filterObject h r) k = lookupVal r k) := by
  have hlen : h.length ≠ 0 := fun hz => hne (List.length_eq_zero.mp hz)
  refine ⟨?_, ?_, ?_, ?_⟩
  · intro r
    unfold filterHiddenFields
    rw [hh]
    change (if h.length = 0 then PersistResult.one r
      else PersistResult.one (filterObject h r)) = PersistResult.one (filterObject h r)
    rw [if_neg hlen]
  · intro rs
    unfold filterHiddenFields
    rw [hh]
    change (if h.length = 0 then PersistResult.many rs
      else PersistResult.many (rs.map (filterObject h))) = PersistResult.many (rs.map (filterObject h))
    rw [if_neg hlen]
  · intro r k hk
    exact lookupVal_filterObject_mem h r k hk
  · intro r k hk
    exact lookupVal_filterObject_not_mem h r k hk

/-- C2 witness: concrete model whose mask is null (hidden but no
fillable, no DMMF introspection), applied to a concrete record. -/
theorem c2_post_fetch_filter_witness :
    (∀ r, filterHiddenFields { name := "User", hidden := some ["password"] }
        (PersistResult.one r) = PersistResult.one (filterObject ["password"] r))
    ∧ (∀ rs, filterHiddenFields { name := "User", hidden := some ["password"] }
        (PersistResult.many rs) = PersistResult.many (rs.map (filterObject ["password"])))
    ∧ (∀ r k, k ∈ ["password"] → lookupVal (filterObject ["password"] r) k = none)
    ∧ (∀ r k, k ∉ ["password"] → lookupVal (filterObject ["password"] r) k = lookupVal r k) :=
  c2_post_fetch_filter { name := "User", hidden := some ["password"] } none
    ["password"] rfl (by decide) rfl

/-- Query options built by `Repository.findById` before the hooks run:
the `where` clause as an association list of field name to value. -/
structure FindOptions where
  whereq : List (String × String) := []
deriving DecidableEq, Repr

/-- The optional lifecycle hooks a model class may define
(`src/core/model.ts`).  Hooks transform plain data; `none` models an
undefined static hook.  `afterFind` is given here at the single-record
view used by `findById`. -/
structure Hooks where
  beforeCreate : Option (Record → Record) := none
  afterCreate : Option (Record → Record → Record) := none
  beforeUpdate : Option (String → Record → Record) := none
  afterUpdate : Option (String → Record → Record → Record) := none
  beforeDelete : Option (String → Unit) := none
  afterDelete : Option (String → Record → Record) := none
  beforeFind : Option (FindOptions → FindOptions) := none
  afterFind : Option (Record → Record) := none

/-- Observable events of one repository operation, in invocation order:
hook invocations and persistence calls with their arguments. -/
inductive Ev where
  | evBeforeCreate (data : Record)
  | evPersistCreate (data : Record) (select : Option (List String))
  | evAfterCreate (data : Record) (result : Record)
  | evBeforeDelete (id : String)
  | evPersistDelete (id : String)
  | evAfterDelete (id : String) (result : Record)
deriving DecidableEq, Repr

/-- The persistence step of `Repository.create`: with a mask, the create
call carries the `select` object; without one, the raw result is
post-filtered by `filterHiddenFields`. -/
def persistedCreateResult (m : ModelClass) (dmmfFields : Option (List String))
    (pcreate : Record → Option (List String) → Record) (data : Record) : Record :=
  match m.getSelectObject dmmfFields with
  | some sel => pcreate data (some sel)
  | none => filterHiddenRecord m (pcreate data none)

/-- `Repository.create(data)`: run `beforeCreate` (if present), call the
persistence `create` with the processed data (and mask, if any),
post-filter hidden fields when there is no mask, then run `afterCreate`
(if present) on the processed data and the result.  Returns the final
result together with the trace of events in invocation order. -/
def Repository.create (m : ModelClass) (dmmfFields : Option (List String)) (hooks : Hooks)
    (pcreate : Record → Option (List String) → Record) (data : Record) :
    Record × List Ev :=
  let select := m.getSelectObject dmmfFields
  let processed := match hooks.beforeCreate with
    | some bc => bc data
    | none => data
  let tBefore : List Ev := match hooks.beforeCreate with
    | some _ => [Ev.evBeforeCreate data]
    | none => []
  let result := persistedCreateResult m dmmfFields pcreate processed
  let tPersist := tBefore ++ [Ev.evPersistCreate processed select]
  match hooks.afterCreate with
  | some ac => (ac processed result, tPersist ++ [Ev.evAfterCreate processed result])
  | none => (result, tPersist)

/-- `Repository.delete(id)`: run `beforeDelete` (result discarded), call
the persistence `delete` (no mask and no post-filtering), then run
`afterDelete` (if present).  Returns the final result with the trace. -/
def Repository.delete (m : ModelClass) (hooks : Hooks)
    (pdelete : String → Record) (id : String) : Record × List Ev :=
  let tBefore : List Ev := match hooks.beforeDelete with
    | some _ => [Ev.evBeforeDelete id]
    | none => []
  let result := pdelete id
  let tPersist := tBefore ++ [Ev.evPersistDelete id]
  match hooks.afterDelete with
  | some ad => (ad id result, tPersist ++ [Ev.evAfterDelete id result])
  | none => (result, tPersist)

/-- The argument object handed to the persistence `findUnique` call. -/
structure FindUniqueArgs where
  whereq : List (String × String)
  select : Option (List String)
deriving DecidableEq, Repr

/-- `Repository.findById(id)`: builds `{ where: { id } }` (the literal
key `"id"`), runs `beforeFind` (if present), calls `findUnique` with the
mask merged in (if any), post-filters a non-null result when there is no
mask, then runs `afterFind` on a non-null result.  Also returns the
argument object of the persistence call. -/
def Repository.findById (m : ModelClass) (dmmfFields : Option (List String)) (hooks : Hooks)
    (pfindUnique : FindUniqueArgs → Option Record) (id : String) :
    Option Record × FindUniqueArgs :=
  let select := m.getSelectObject dmmfFields
  let fo : FindOptions := { whereq := [("id", id)] }
  let fo2 := match hooks.beforeFind with
    | some bf => bf fo
    | none => fo
  let args : FindUniqueArgs := { whereq := fo2.whereq, select := select }
  let raw := pfindUnique args
  let result := match select with
    | some _ => raw
    | none => raw.map (filterHiddenRecord m)
  let final := match result, hooks.afterFind with
    | some r, some af => some (af r)
    | r, _ => r
  (final, args)

/-- C3: with `beforeCreate` and `afterCreate` both defined,
`Repository.create` invokes `beforeCreate` first, calls the persistence
`create` with `beforeCreate`'s result, invokes `afterCreate` strictly
after the persistence call on that same processed data and the
persistence result, and returns `afterCreate`'s result. -/
theorem c3_create_hook_order (m : ModelClass) (dmmfFields : Option (List String))
    (hooks : Hooks) (pcreate : Record → Option (List String) → Record) (data : Record)
    (bc : Record → Record) (ac : Record → Record → Record)
    (hbc : hooks.beforeCreate = some bc) (hac : hooks.afterCreate = some ac) :
    Repository.create m dmmfFields hooks pcreate data
      = (ac (bc data) (persistedCreateResult m dmmfFields pcreate (bc data)),
        [Ev.evBeforeCreate data,
         Ev.evPersistCreate (bc data) (m.getSelectObject dmmfFields),
         Ev.evAfterCreate (bc data) (persistedCreateResult m dmmfFields pcreate (bc data))]) := by
  unfold Repository.create
  rw [hbc, hac]
  rfl

/-- Concrete model shared by the repository witnesses. -/
def userModel : ModelClass :=
  { name := "User", tableName := some "users", fillable := some ["name", "email"],
    hidden := some ["password"] }

/-- Concrete `beforeCreate` hook for the C3 witness (uppercases nothing,
adds a marker field). -/
def bcWitnessHook (r : Record) : Record := ("marked", Value.vBool true) :: r

/-- Concrete `afterCreate` hook for the C3 witness. -/
def acWitnessHook (d r : Record) : Record := ("seen", Value.vNum (Int.ofNat d.length)) :: r

/-- Concrete persistence `create` for the C3 witness. -/
def pcreateWitness (d : Record) (select : Option (List String)) : Record :=
  match select with
  | some sel => d.filter (fun kv => decide (kv.1 ∈ sel))
  | none => d

/-- Hook set with `beforeCreate` and `afterCreate` defined. -/
def hooksWithCreate : Hooks :=
  { beforeCreate := some bcWitnessHook, afterCreate := some acWitnessHook }

/-- C3 witness: the hook-ordering theorem applied at a concrete model,
hooks, persistence function and input. -/
theorem c3_create_hook_order_witness :
    Repository.create userModel none hooksWithCreate pcreateWitness [("name", Value.vStr "a")]
      = (acWitnessHook (bcWitnessHook [("name", Value.vStr "a")])
          (persistedCreateResult userModel none pcreateWitness
            (bcWitnessHook [("name", Value.vStr "a")])),
        [Ev.evBeforeCreate [("name", Value.vStr "a")],
         Ev.evPersistCreate (bcWitnessHook [("name", Value.vStr "a")])
           (userModel.getSelectObject none),
         Ev.evAfterCreate (bcWitnessHook [("name", Value.vStr "a")])
           (persistedCreateResult userModel none pcreateWitness
             (bcWitnessHook [("name", Value.vStr "a")]))]) :=
  c3_create_hook_order userModel none hooksWithCreate pcreateWitness
    [("name", Value.vStr "a")] bcWitnessHook acWitnessHook rfl rfl

/-- C9: for a model with non-empty hidden fields and no `afterDelete`
hook, `Repository.delete` returns the persistence layer's deleted record
verbatim — neither the projection mask nor the hidden-field filter is
applied, so hidden fields are still present in the returned value. -/
theorem c9_delete_no_filter (m : ModelClass) (hooks : Hooks)
    (pdelete : String → Record) (id : String) (h : List String)
    (hh : m.hidden = some h) (hne : h ≠ []) (had : hooks.afterDelete = none) :
    (Repository.delete m hooks pdelete id).1 = pdelete id
    ∧ ∀ k, k ∈ h →
        lookupVal (Repository.delete m hooks pdelete id).1 k = lookupVal (pdelete id) k := by
  have hres : (Repository.delete m hooks pdelete id).1 = pdelete id := by
    unfold Repository.delete
    rw [had]
  exact ⟨hres, fun k _ => by rw [hres]⟩

/-- C9 witness: deleting through a model with a hidden `password` field
returns the raw record, password included. -/
theorem c9_delete_no_filter_witness :
    (Repository.delete userModel {} (fun _ => [("id", Value.vStr "1"),
        ("password", Value.vStr "secret")]) "1").1
      = [("id", Value.vStr "1"), ("password", Value.vStr "secret")]
    ∧ ∀ k, k ∈ ["password"] →
        lookupVal (Repository.delete userModel {} (fun _ => [("id", Value.vStr "1"),
          ("password", Value.vStr "secret")]) "1").1 k
        = lookupVal [("id", Value.vStr "1"), ("password", Value.vStr "secret")] k :=
  c9_delete_no_filter userModel {}
    (fun _ => [("id", Value.vStr "1"), ("password", Value.vStr "secret")]) "1"
    ["password"] rfl (by decide) rfl

/-- A model declaring a primary key other than `id`, as the docs permit
(`static primaryKey = 'uuid'`). -/
def uuidKeyedModel : ModelClass :=
  { name := "Account", tableName := some "accounts", primaryKey := some "uuid" }

/-- C7 evidence: `Repository.findById` always builds its `findUnique`
query with the literal key `"id"`, even when the model declares
`primaryKey = "uuid"` — the declared primary key (`getPrimaryKey`) is
ignored by the query construction. -/
theorem c7_findById_ignores_primary_key :
    (Repository.findById uuidKeyedModel none {} (fun _ => none) "x").2.whereq
        = [("id", "x")]
    ∧ uuidKeyedModel.getPrimaryKey = "uuid"
    ∧ ("id" : String) ≠ "uuid" := by
  refine ⟨rfl, rfl, ?_⟩
  decide

/-- The field kinds of `FieldOptions['type']` (`src/types/model.type.ts`). -/
inductive FType where
  | string | number | boolean | date | uuid
deriving DecidableEq, Repr

/-- Per-field constraint metadata (`FieldOptions` in
`src/types/model.type.ts`). -/
structure FieldOptions where
  type : FType
  required : Option Bool := none
  unique : Option Bool := none
  length : Option Nat := none
  primary : Option Bool := none
deriving DecidableEq, Repr

/-- The base shape of a Zod field produced by `createZodField`. -/
inductive ZBase where
  | strZ (maxLen : Option Nat)
  | numZ
  | boolZ
  | dateZ
  | uuidZ
deriving DecidableEq, Repr

/-- A Zod field: a base validator, possibly marked `.optional()`. -/
structure ZField where
  base : ZBase
  optional : Bool
deriving DecidableEq, Repr

/-- Lexical check modelling Zod's `z.string().uuid()` validator:
five dash-separated groups of hexadecimal digits of lengths
8-4-4-4-12. -/
def isUuidString (s : String) : Bool :=
  let parts := s.splitOn "-"
  decide (parts.map String.length = [8, 4, 4, 4, 12])
    && parts.all (fun p => p.toList.all (fun c =>
        (decide ('0' ≤ c) && decide (c ≤ '9'))
          || (decide ('a' ≤ c) && decide (c ≤ 'f'))
          || (decide ('A' ≤ c) && decide (c ≤ 'F'))))

/-- `ValidationGenerator.createZodField`: map a field's declared type to
a base validator (strings get `.max(length)` when a truthy length is
set), then mark it optional iff `required` is explicitly `false`. -/
def createZodField (options : FieldOptions) : ZField :=
  let base : ZBase :=
    match options.type with
    | .string =>
      ZBase.strZ (match options.length with
        | some l => if l = 0 then none else some l
        | none => none)
    | .number => ZBase.numZ
    | .boolean => ZBase.boolZ
    | .date => ZBase.dateZ
    | .uuid => ZBase.uuidZ
  { base := base, optional := decide (options.required = some false) }

/-- Whether a present value satisfies a base validator. -/
def validateValue (b : ZBase) (v : Value) : Bool :=
  match b, v with
  | .strZ ml, .vStr s =>
    (match ml with
     | some mx => decide (s.length ≤ mx)
     | none => true)
  | .numZ, .vNum _ => true
  | .boolZ, .vBool _ => true
  | .dateZ, .vDate _ => true
  | .uuidZ, .vStr s => isUuidString s
  | _, _ => false

/-- Zod semantics of one object field: an absent key passes iff the
field is optional; a present value must satisfy the base validator. -/
def checkField (f : ZField) (mv : Option Value) : Bool :=
  match mv with
  | none => f.optional
  | some v => validateValue f.base v

/-- `z.object(schema).parse(input)` success, restricted to accept/reject:
every schema field checks against the input (unknown input keys are
stripped by Zod and never rejected). -/
def parseOk (schema : List (String × ZField)) (input : Record) : Bool :=
  schema.all (fun p => checkField p.2 (lookupVal input p.1))

/-- Field metadata of a model, as collected by the `@Field` decorator
registry (`getFieldMetadata`): field name to options, in declaration
order. -/
abbrev FieldMeta := List (String × FieldOptions)

/-- The exclusion test of the strict schema: `options.primary &&
options.type === 'uuid'` (primary truthy means explicitly `true`). -/
def isPrimaryUuidField (o : FieldOptions) : Bool :=
  decide (o.primary = some true) && decide (o.type = FType.uuid)

/-- `ValidationGenerator.generateStrictZodSchema` (field-metadata
variant, `src/utils/validation.ts`): empty schema when there is no
metadata; otherwise one Zod field per metadata entry, skipping fields
that are primary and typed `uuid`. -/
def generateStrictZodSchema (fieldMetadata : FieldMeta) : List (String × ZField) :=
  if fieldMetadata.length = 0 then []
  else (fieldMetadata.filter (fun p => !isPrimaryUuidField p.2)).map
    (fun p => (p.1, createZodField p.2))

/-- `ValidationGenerator.generateZodSchema` (field-metadata variant):
same fields as the strict schema but with no primary-key exclusion and
every field made optional by the trailing `.partial()`. -/
def generateZodSchema (fieldMetadata : FieldMeta) : List (String × ZField) :=
  if fieldMetadata.length = 0 then []
  else (fieldMetadata.map (fun p => (p.1, createZodField p.2))).map
    (fun p => (p.1, { p.2 with optional := true }))

/-- `ValidationGenerator.generateZodSchema` (fillable-based variant):
every fillable field becomes `z.string().optional()`, and the object is
additionally `.partial()`. -/
def generateZodSchemaSimple (m : ModelClass) : List (String × ZField) :=
  let fillable := match m.fillable with
    | some f => f
    | none => []
  if fillable.length = 0 then []
  else (fillable.map (fun n => (n, ({ base := ZBase.strZ none, optional := true } : ZField)))).map
    (fun p => (p.1, { p.2 with optional := true }))

/-- `ValidationGenerator.generateStrictZodSchema` (fillable-based
variant): every fillable field becomes a required `z.string()`. -/
def generateStrictZodSchemaSimple (m : ModelClass) : List (String × ZField) :=
  let fillable := match m.fillable with
    | some f => f
    | none => []
  if fillable.length = 0 then []
  else fillable.map (fun n => (n, ({ base := ZBase.strZ none, optional := false } : ZField)))

/-- Membership characterisation of the strict metadata schema. -/
theorem mem_generateStrictZodSchema (fm : FieldMeta) (n : String) (f : ZField) :
    (n, f) ∈ generateStrictZodSchema fm ↔
      ∃ o, (n, o) ∈ fm ∧ isPrimaryUuidField o = false ∧ f = createZodField o := by
  unfold generateStrictZodSchema
  by_cases hfm : fm.length = 0
  · rw [if_pos hfm]
    rw [List.length_eq_zero.mp hfm]
    simp
  · rw [if_neg hfm]
    constructor
    · intro hmem
      rcases List.mem_map.mp hmem with ⟨p, hp, hpe⟩
      rcases List.mem_filter.mp hp with ⟨hpfm, hpf⟩
      refine ⟨p.2, ?_, ?_, ?_⟩
      · have : (n, p.2) = p := by
          cases p
          cases hpe
          rfl
        rw [this]; exact hpfm
      · cases hb : isPrimaryUuidField p.2
        · rfl
        · rw [hb] at hpf; cases hpf
      · cases hpe; rfl
    · rintro ⟨o, ho, hexc, rfl⟩
      exact List.mem_map.mpr ⟨(n, o),
        List.mem_filter.mpr ⟨ho, by rw [hexc]; rfl⟩, rfl⟩

/-- Every entry of the strict metadata schema comes from a
non-primary-uuid metadata entry. -/
theorem c4_strict_schema (fm : FieldMeta) (input : Record) :
    ((generateStrictZodSchema fm).map Prod.fst
        = (fm.filter (fun p => !isPrimaryUuidField p.2)).map Prod.fst)
    ∧ ((∀ n o, (n, o) ∈ fm → isPrimaryUuidField o = false →
          (o.required ≠ some false →
            ∃ v, lookupVal input n = some v ∧ validateValue (createZodField o).base v = true)
          ∧ (o.required = some false →
            lookupVal input n = none ∨
              ∃ v, lookupVal input n = some v ∧ validateValue (createZodField o).base v = true))
        → parseOk (generateStrictZodSchema fm) input = true)
    ∧ (∀ n o, (n, o) ∈ fm → isPrimaryUuidField o = false → o.required ≠ some false →
        lookupVal input n = none → parseOk (generateStrictZodSchema fm) input = false) := by
  refine ⟨?_, ?_, ?_⟩
  · unfold generateStrictZodSchema
    by_cases hfm : fm.length = 0
    · rw [if_pos hfm, List.length_eq_zero.mp hfm]
      rfl
    · rw [if_neg hfm, List.map_map]
      rfl
  · intro hall
    rw [parseOk, List.all_eq_true]
    rintro ⟨n, f⟩ hmem
    rcases (mem_generateStrictZodSchema fm n f).mp hmem with ⟨o, ho, hexc, rfl⟩
    rcases hall n o ho hexc with ⟨hreq, hopt⟩
    by_cases hr : o.required = some false
    · rcases hopt hr with hnone | ⟨v, hv, hval⟩
      · rw [show checkField (createZodField o) (lookupVal input n)
            = checkField (createZodField o) none from by rw [hnone]]
        unfold checkField createZodField
        simp [hr]
      · rw [hv]
        exact hval
    · rcases hreq hr with ⟨v, hv, hval⟩
      rw [hv]
      exact hval
  · intro n o ho hexc hreq hnone
    cases hall : parseOk (generateStrictZodSchema fm) input
    · rfl
    · exfalso
      rw [parseOk, List.all_eq_true] at hall
      have hmem := (mem_generateStrictZodSchema fm n (createZodField o)).mpr
        ⟨o, ho, hexc, rfl⟩
      have := hall (n, createZodField o) hmem
      rw [hnone] at this
      unfold checkField createZodField at this
      simp [hreq] at this

/-- Concrete field metadata for the C4 witness: a primary uuid key, a
required bounded string, and an explicitly optional string. -/
def fmWitness : FieldMeta :=
  [("id", { type := FType.uuid, primary := some true }),
   ("name", { type := FType.string, length := some 5 }),
   ("nick", { type := FType.string, required := some false })]

/-- C4 witness: on the concrete metadata, the strict schema keeps
exactly the non-primary-uuid fields, accepts an input providing the
required field with a valid value, and rejects the input omitting it. -/
theorem c4_strict_schema_witness :
    (generateStrictZodSchema fmWitness).map Prod.fst = ["name", "nick"]
    ∧ parseOk (generateStrictZodSchema fmWitness) [("name", Value.vStr "John")] = true
    ∧ parseOk (generateStrictZodSchema fmWitness) [] = false := by
  refine ⟨by decide, ?_, ?_⟩
  · apply (c4_strict_schema fmWitness [("name", Value.vStr "John")]).2.1
    intro n o hmem hexc
    simp only [fmWitness, List.mem_cons, List.mem_singleton, List.not_mem_nil, or_false,
      Prod.mk.injEq] at hmem
    rcases hmem with ⟨rfl, rfl⟩ | ⟨rfl, rfl⟩ | ⟨rfl, rfl⟩
    · cases hexc
    · exact ⟨fun _ => ⟨Value.vStr "John", by decide, by decide⟩,
        fun hcontra => by simp at hcontra⟩
    · exact ⟨fun hcontra => absurd rfl hcontra, fun _ => Or.inl (by decide)⟩
  · exact (c4_strict_schema fmWitness []).2.2 "name"
      { type := FType.string, length := some 5 } (by decide) (by decide)
      (by simp) rfl

/-- `List.all` over a mapped list checks the composite predicate. -/
theorem all_map_comp {α β : Type} (l : List α) (g : α → β) (p : β → Bool) :
    (l.map g).all p = l.all (fun x => p (g x)) := by
  induction l with
  | nil => rfl
  | cons a t ih => simp [List.all_cons, ih]

/-- A required plain text Zod field accepts exactly present strings. -/
theorem checkField_required_text (mv : Option Value) :
    checkField { base := ZBase.strZ none, optional := false } mv = true
      ↔ ∃ s, mv = some (Value.vStr s) := by
  cases mv with
  | none => simp [checkField]
  | some v => cases v <;> simp [checkField, validateValue]

/-- An optional plain text Zod field accepts absence or present strings. -/
theorem checkField_optional_text (mv : Option Value) :
    checkField { base := ZBase.strZ none, optional := true } mv = true
      ↔ mv = none ∨ ∃ s, mv = some (Value.vStr s) := by
  cases mv with
  | none => simp [checkField]
  | some v => cases v <;> simp [checkField, validateValue]

/-- The fillable-based strict schema, computed for a model with a
non-empty fillable list. -/
theorem generateStrictZodSchemaSimple_eq (m : ModelClass) (f : List String)
    (hf : m.fillable = some f) (hfne : f ≠ []) :
    generateStrictZodSchemaSimple m
      = f.map (fun n => (n, ({ base := ZBase.strZ none, optional := false } : ZField))) := by
  unfold generateStrictZodSchemaSimple
  rw [hf]
  change (if f.length = 0 then [] else f.map _) = _
  rw [if_neg (fun hz => hfne (List.length_eq_zero.mp hz))]

/-- The fillable-based partial schema, computed for a model with a
non-empty fillable list. -/
theorem generateZodSchemaSimple_eq (m : ModelClass) (f : List String)
    (hf : m.fillable = some f) (hfne : f ≠ []) :
    generateZodSchemaSimple m
      = (f.map (fun n => (n, ({ base := ZBase.strZ none, optional := true } : ZField)))).map
          (fun p => (p.1, { p.2 with optional := true })) := by
  unfold generateZodSchemaSimple
  rw [hf]
  change (if f.length = 0 then [] else (f.map _).map _) = _
  rw [if_neg (fun hz => hfne (List.length_eq_zero.mp hz))]

/-- C5: for a model carrying no per-field type information but a
non-empty fillable list, the strict schema accepts an input iff every
fillable field is present as a text value, and the partial schema
accepts an input iff every fillable field is absent or a text value. -/
theorem c5_fillable_text_schemas (m : ModelClass) (f : List String)
    (hf : m.fillable = some f) (hfne : f ≠ []) (input : Record) :
    (parseOk (generateStrictZodSchemaSimple m) input = true
      ↔ ∀ n ∈ f, ∃ s, lookupVal input n = some (Value.vStr s))
    ∧ (parseOk (generateZodSchemaSimple m) input = true
      ↔ ∀ n ∈ f, lookupVal input n = none ∨ ∃ s, lookupVal input n = some (Value.vStr s)) := by
  rw [generateStrictZodSchemaSimple_eq m f hf hfne, generateZodSchemaSimple_eq m f hf hfne]
  constructor
  · rw [parseOk, all_map_comp, List.all_eq_true]
    constructor
    · intro hall n hn
      exact (checkField_required_text (lookupVal input n)).mp (hall n hn)
    · intro hall n hn
      exact (checkField_required_text (lookupVal input n)).mpr (hall n hn)
  · rw [parseOk, all_map_comp, all_map_comp, List.all_eq_true]
    constructor
    · intro hall n hn
      exact (checkField_optional_text (lookupVal input n)).mp (hall n hn)
    · intro hall n hn
      exact (checkField_optional_text (lookupVal input n)).mpr (hall n hn)

/-- C5 witness: the fillable-text characterisation applied to the
concrete user model and a concrete input. -/
theorem c5_fillable_text_schemas_witness :
    (parseOk (generateStrictZodSchemaSimple userModel)
        [("name", Value.vStr "a"), ("email", Value.vStr "b")] = true
      ↔ ∀ n ∈ ["name", "email"], ∃ s,
          lookupVal [("name", Value.vStr "a"), ("email", Value.vStr "b")] n
            = some (Value.vStr s))
    ∧ (parseOk (generateZodSchemaSimple userModel)
        [("name", Value.vStr "a"), ("email", Value.vStr "b")] = true
      ↔ ∀ n ∈ ["name", "email"],
          lookupVal [("name", Value.vStr "a"), ("email", Value.vStr "b")] n = none
          ∨ ∃ s, lookupVal [("name", Value.vStr "a"), ("email", Value.vStr "b")] n
              = some (Value.vStr s)) :=
  c5_fillable_text_schemas userModel ["name", "email"] rfl (by decide)
    [("name", Value.vStr "a"), ("email", Value.vStr "b")]

/-- C10: schema building and validation are pure functions of the model
descriptor, so building a partial or strict schema twice yields
validators with identical accept/reject behaviour on every input, and
validating the same input twice against one built schema yields the same
result both times. -/
theorem c10_schema_build_idempotent (fm : FieldMeta) (m : ModelClass) (input : Record) :
    generateStrictZodSchema fm = generateStrictZodSchema fm
    ∧ generateZodSchema fm = generateZodSchema fm
    ∧ generateStrictZodSchemaSimple m = generateStrictZodSchemaSimple m
    ∧ generateZodSchemaSimple m = generateZodSchemaSimple m
    ∧ parseOk (generateStrictZodSchema fm) input = parseOk (generateStrictZodSchema fm) input
    ∧ parseOk (generateZodSchema fm) input = parseOk (generateZodSchema fm) input
    ∧ parseOk (generateStrictZodSchemaSimple m) input
        = parseOk (generateStrictZodSchemaSimple m) input
    ∧ parseOk (generateZodSchemaSimple m) input = parseOk (generateZodSchemaSimple m) input :=
  ⟨rfl, rfl, rfl, rfl, rfl, rfl, rfl, rfl⟩

/-- The destructured query of the LIST handler
(`const { page = 1, limit = 10, ...filters } = req.query`): optional
numeric `page` and `limit`, and the remaining query keys as an
equality-filter association list. -/
structure ListQuery where
  page : Option Nat := none
  limit : Option Nat := none
  filters : List (String × String) := []
deriving DecidableEq, Repr

/-- The options object handed to `repository.findAll` by the LIST
handler. -/
structure FindAllOptions where
  skip : Nat
  take : Nat
  whereq : List (String × String)
deriving DecidableEq, Repr

/-- The `pagination` object of the LIST response body. -/
structure Pagination where
  page : Nat
  limit : Nat
  total : Nat
  pages : Nat
deriving DecidableEq, Repr

/-- The LIST response body `{data, pagination}`. -/
structure ListResponse where
  data : List Record
  pagination : Pagination
deriving DecidableEq, Repr

/-- Everything observable about one LIST request: the `findAll`
argument, the `count` argument, and the JSON response. -/
structure ListCall where
  findAllArgs : FindAllOptions
  countArg : List (String × String)
  response : ListResponse
deriving DecidableEq, Repr

/-- `Math.ceil(a / b)` on naturals, for positive `b`. -/
def mathCeilDiv (a b : Nat) : Nat := (a + b - 1) / b

/-- The LIST route handler of `Crudora.generateRoutes`: default `page`
to 1 and `limit` to 10, compute `skip = (page-1)*limit`, call
`findAll({skip, take: limit, where: filters})` and `count(filters)`,
and respond with `{data, pagination: {page, limit, total, pages}}`. -/
def listHandler (q : ListQuery) (findAll : FindAllOptions → List Record)
    (count : List (String × String) → Nat) : ListCall :=
  let page := match q.page with
    | some p => p
    | none => 1
  let limit := match q.limit with
    | some l => l
    | none => 10
  let skip := (page - 1) * limit
  let args : FindAllOptions := { skip := skip, take := limit, whereq := q.filters }
  let items := findAll args
  let total := count q.filters
  { findAllArgs := args,
    countArg := q.filters,
    response :=
      { data := items,
        pagination :=
          { page := page, limit := limit, total := total,
            pages := mathCeilDiv total limit } } }

/-- `mathCeilDiv` is an upper bound: `a ≤ ceil(a/b) * b`. -/
theorem le_mathCeilDiv_mul (a b : Nat) (hb : 0 < b) : a ≤ mathCeilDiv a b * b := by
  unfold mathCeilDiv
  rcases a with _ | a
  · exact Nat.zero_le _
  · have h1 : a + 1 + b - 1 = a + b := by omega
    rw [h1, Nat.add_div_right a hb]
    have h2 := Nat.div_add_mod a b
    have h3 : a % b < b := Nat.mod_lt _ hb
    calc a + 1 = b * (a / b) + a % b + 1 := by rw [h2]
      _ = b * (a / b) + (a % b + 1) := Nat.add_assoc _ _ _
      _ ≤ b * (a / b) + b := Nat.add_le_add_left h3 _
      _ = b * (a / b + 1) := (Nat.mul_succ b (a / b)).symm
      _ = (a / b + 1) * b := Nat.mul_comm _ _

/-- `mathCeilDiv` is the least such bound: if `a ≤ k * b` then
`ceil(a/b) ≤ k`. -/
theorem mathCeilDiv_le (a b k : Nat) (hb : 0 < b) (h : a ≤ k * b) :
    mathCeilDiv a b ≤ k := by
  unfold mathCeilDiv
  have h2 : a + b - 1 ≤ k * b + (b - 1) := by
    have h3 : a + b - 1 ≤ a + (b - 1) := by omega
    exact h3.trans (Nat.add_le_add_right h _)
  have h4 : k * b + (b - 1) < (k + 1) * b := by
    rw [Nat.succ_mul]
    exact Nat.add_lt_add_left (by omega) _
  have h5 : a + b - 1 < (k + 1) * b := lt_of_le_of_lt h2 h4
  have h6 : (a + b - 1) / b < k + 1 := (Nat.div_lt_iff_lt_mul hb).mpr h5
  omega

/-- C6: the LIST handler defaults `page` to 1 and `limit` to 10, calls
`findAll` with `skip = (page-1)*limit` and `take = limit`, passes the
remaining query parameters as the equality-filter map to both `findAll`
and `count`, and responds with `{data, pagination}` where `pages` is the
ceiling of `total / limit` (characterised as the least `k` with
`total ≤ k * limit`). -/
theorem c6_list_pagination (q : ListQuery) (findAll : FindAllOptions → List Record)
    (count : List (String × String) → Nat) :
    (∀ p, q.page = some p → (listHandler q findAll count).response.pagination.page = p)
    ∧ (q.page = none → (listHandler q findAll count).response.pagination.page = 1)
    ∧ (∀ l, q.limit = some l → (listHandler q findAll count).response.pagination.limit = l)
    ∧ (q.limit = none → (listHandler q findAll count).response.pagination.limit = 10)
    ∧ (listHandler q findAll count).findAllArgs.skip
        = ((listHandler q findAll count).response.pagination.page - 1)
          * (listHandler q findAll count).response.pagination.limit
    ∧ (listHandler q findAll count).findAllArgs.take
        = (listHandler q findAll count).response.pagination.limit
    ∧ (listHandler q findAll count).findAllArgs.whereq = q.filters
    ∧ (listHandler q findAll count).countArg = q.filters
    ∧ (listHandler q findAll count).response.data
        = findAll (listHandler q findAll count).findAllArgs
    ∧ (listHandler q findAll count).response.pagination.total = count q.filters
    ∧ (listHandler q findAll count).response.pagination.pages
        = mathCeilDiv (count q.filters) ((listHandler q findAll count).response.pagination.limit)
    ∧ (0 < (listHandler q findAll count).response.pagination.limit →
        (listHandler q findAll count).response.pagination.total
            ≤ (listHandler q findAll count).response.pagination.pages
              * (listHandler q findAll count).response.pagination.limit
        ∧ ∀ k, (listHandler q findAll count).response.pagination.total
              ≤ k * (listHandler q findAll count).response.pagination.limit →
            (listHandler q findAll count).response.pagination.pages ≤ k) := by
  obtain ⟨qp, ql, qf⟩ := q
  refine ⟨?_, ?_, ?_, ?_, rfl, rfl, rfl, rfl, rfl, rfl, rfl, ?_⟩
  · intro p hp
    cases hp
    rfl
  · intro hp
    cases hp
    rfl
  · intro l hl
    cases hl
    rfl
  · intro hl
    cases hl
    rfl
  · intro hl
    cases ql with
    | none =>
      exact ⟨le_mathCeilDiv_mul (count qf) 10 hl,
        fun k hk => mathCeilDiv_le (count qf) 10 k hl hk⟩
    | some l =>
      exact ⟨le_mathCeilDiv_mul (count qf) l hl,
        fun k hk => mathCeilDiv_le (count qf) l k hl hk⟩

/-- C6 witness: page 2, limit 5 and total 12 yield skip 5 and the
pagination object `{page: 2, limit: 5, total: 12, pages: 3}`. -/
theorem c6_list_pagination_witness :
    (listHandler { page := some 2, limit := some 5, filters := [] }
        (fun _ => []) (fun _ => 12)).response.pagination.page = 2
    ∧ (listHandler { page := some 2, limit := some 5, filters := [] }
        (fun _ => []) (fun _ => 12)).response.pagination.limit = 5
    ∧ (listHandler { page := some 2, limit := some 5, filters := [] }
        (fun _ => []) (fun _ => 12)).response.pagination.total = 12
    ∧ (listHandler { page := some 2, limit := some 5, filters := [] }
        (fun _ => []) (fun _ => 12)).response.pagination.pages = 3
    ∧ (listHandler { page := some 2, limit := some 5, filters := [] }
        (fun _ => []) (fun _ => 12)).findAllArgs.skip = 5
    ∧ (listHandler { page := some 2, limit := some 5, filters := [] }
        (fun _ => []) (fun _ => 12)).findAllArgs.take = 5
    ∧ 12 ≤ 3 * 5
    ∧ ∀ k, 12 ≤ k * 5 → 3 ≤ k := by
  obtain ⟨h1, h2, h3, h4, h5, h6, h7, h8, h9, h10, h11, h12⟩ :=
    c6_list_pagination { page := some 2, limit := some 5, filters := [] }
      (fun _ => []) (fun _ => 12)
  refine ⟨h1 2 rfl, h3 5 rfl, h10, h11, h5, h6, ?_, ?_⟩
  · exact (h12 (by decide)).1
  · intro k hk
    exact (h12 (by decide)).2 k hk

/-- A custom route registered through `Crudora.get/post/put/delete/patch`. -/
structure CustomRoute where
  method : String
  path : String
deriving DecidableEq, Repr

/-- Mounting of one custom route in `generateRoutes`: the switch on
`route.method.toLowerCase()` mounts it at `basePath + route.path`; an
unrecognised method mounts nothing. -/
def mountCustomRoute (basePath : String) (r : CustomRoute) : List (String × String) :=
  if asciiLower r.method = "get" then [(r.method, basePath ++ r.path)]
  else if asciiLower r.method = "post" then [(r.method, basePath ++ r.path)]
  else if asciiLower r.method = "put" then [(r.method, basePath ++ r.path)]
  else if asciiLower r.method = "delete" then [(r.method, basePath ++ r.path)]
  else if asciiLower r.method = "patch" then [(r.method, basePath ++ r.path)]
  else []

/-- The five CRUD routes `Crudora.generateRoutes` mounts for one model at
`basePath + '/' + tableName`. -/
def crudRoutesFor (basePath : String) (mc : ModelClass) : List (String × String) :=
  let routePath := basePath ++ "/" ++ mc.getTableName
  [("GET", routePath), ("GET", routePath ++ "/:id"), ("POST", routePath),
   ("PUT", routePath ++ "/:id"), ("DELETE", routePath ++ "/:id")]

/-- The full route table `Crudora.generateRoutes` mounts, in order:
CRUD routes for every registered model, then the custom routes.  No
other route is mounted. -/
def generateRoutes (models : List ModelClass) (customRoutes : List CustomRoute)
    (basePath : String) : List (String × String) :=
  models.bind (crudRoutesFor basePath) ++ customRoutes.bind (mountCustomRoute basePath)

/-- C8 evidence: with a registered model and a registered custom route,
`generateRoutes` mounts exactly the five CRUD routes and the custom
route — no documentation endpoint is mounted at the base path `/api`. -/
theorem c8_no_documentation_route :
    generateRoutes [userModel] [{ method := "GET", path := "/custom" }] "/api"
      = [("GET", "/api/users"), ("GET", "/api/users/:id"), ("POST", "/api/users"),
         ("PUT", "/api/users/:id"), ("DELETE", "/api/users/:id"), ("GET", "/api/custom")]
    ∧ ∀ p ∈ generateRoutes [userModel] [{ method := "GET", path := "/custom" }] "/api",
        p.2 ≠ "/api" := by
  refine ⟨by decide, by decide⟩
